import Mathlib

/-!
Shallow embedding of the chess-mcp-server core (src/chess_engine.py,
src/game_state.py, src/mcp_server.py).

The underlying chess rules engine (the python-chess library) is an external
collaborator: the core consumes it only through the interface of spec §6
(legal-move generation, push/pop, turn, terminal detection, piece lookup).
It is therefore modelled here as a record of operations `Rules P M` over an
abstract position type `P` and move type `M`.  Randomness (`random.random`,
`random.choice`, `random.shuffle`) is injected explicitly: the uniform draw
is a rational argument, `random.choice` is an index into the list, and
`random.shuffle` is a function argument assumed (in theorems) to permute its
input.  Python's in-place board mutation is modelled by threading the
position value through every function that mutates it, so the push/pop
discipline of the search is visible in the embedding.
-/

/-- Scores in the search: integer evaluations extended with the two
infinities used for the initial alpha/beta bounds (`math.inf`). -/
inductive Score where
  | negInf : Score
  | fin (n : Int) : Score
  | posInf : Score
deriving DecidableEq, Repr

/-- Total order test on scores, `a ≤ b`. -/
def Score.ble : Score → Score → Bool
  | .negInf, _ => true
  | .fin _, .negInf => false
  | .fin a, .fin b => a ≤ b
  | .fin _, .posInf => true
  | .posInf, .posInf => true
  | .posInf, _ => false

/-- Strict order test on scores, `a < b`. -/
def Score.blt (a b : Score) : Bool := !(Score.ble b a)

/-- Python `max(a, b)` (returns `a` on ties). -/
def Score.max (a b : Score) : Score := if Score.ble b a then a else b

/-- Python `min(a, b)` (returns `a` on ties). -/
def Score.min (a b : Score) : Score := if Score.ble a b then a else b

/-- The six piece kinds of the external rules engine. -/
inductive PieceKind where
  | pawn | knight | bishop | rook | queen | king
deriving DecidableEq, Repr

/-- A piece: kind plus colour (`true` = White, as in python-chess). -/
structure Piece where
  kind : PieceKind
  color : Bool
deriving DecidableEq, Repr

/-- Embeds `ChessAI.piece_values` (src/chess_engine.py lines 23-26). -/
def piece_values : PieceKind → Int
  | .pawn => 10
  | .knight => 30
  | .bishop => 30
  | .rook => 50
  | .queen => 90
  | .king => 900

/-- The external rules-engine interface of spec §6, as consumed by the core.
`turn` is `true` when White (the reference side) is to move. -/
structure Rules (P M : Type) where
  initial : P
  legalMoves : P → List M
  push : P → M → P
  pop : P → P
  turn : P → Bool
  pieceAt : P → Fin 64 → Option Piece
  isCheckmate : P → Bool
  isStalemate : P → Bool
  isInsufficientMaterial : P → Bool
  isGameOver : P → Bool
  outcomeWinner : P → Option Bool

variable {P M : Type}

/-- Embeds `ChessAI._evaluate_board` (src/chess_engine.py lines 52-67): checkmate is
a large score signed against the side to move, stalemate or insufficient
material is zero, otherwise signed material summed over the 64 squares. -/
def evaluate_board (R : Rules P M) (b : P) : Int :=
  if R.isCheckmate b then (if R.turn b then -9999 else 9999)
  else if R.isStalemate b || R.isInsufficientMaterial b then 0
  else (List.finRange 64).foldl (fun score sq =>
    match R.pieceAt b sq with
    | some piece =>
        if piece.color then score + piece_values piece.kind
        else score - piece_values piece.kind
    | none => score) 0

/-- The maximizing loop of `ChessAI._minimax` (src/chess_engine.py lines
75-85): push each move, recurse via `next`, pop, update `max_eval` and
`alpha`, and break once `beta <= alpha`.  The position is threaded to model
the in-place mutation. -/
def maxLoop (R : Rules P M) (next : P → Score → Score → Score × P) :
    List M → P → Score → Score → Score → Score × P
  | [], b, maxEval, _alpha, _beta => (maxEval, b)
  | m :: rest, b, maxEval, alpha, beta =>
    let r := next (R.push b m) alpha beta
    let b3 := R.pop r.2
    let maxEval1 := Score.max maxEval r.1
    let alpha1 := Score.max alpha r.1
    if Score.ble beta alpha1 then (maxEval1, b3)
    else maxLoop R next rest b3 maxEval1 alpha1 beta

/-- The minimizing loop of `ChessAI._minimax` (src/chess_engine.py lines
86-96). -/
def minLoop (R : Rules P M) (next : P → Score → Score → Score × P) :
    List M → P → Score → Score → Score → Score × P
  | [], b, minEval, _alpha, _beta => (minEval, b)
  | m :: rest, b, minEval, alpha, beta =>
    let r := next (R.push b m) alpha beta
    let b3 := R.pop r.2
    let minEval1 := Score.min minEval r.1
    let beta1 := Score.min beta r.1
    if Score.ble beta1 alpha then (minEval1, b3)
    else minLoop R next rest b3 minEval1 alpha beta1

/-- Embeds `ChessAI._minimax` (src/chess_engine.py lines 69-96): alpha-beta search
to the given depth, with the maximizing flag as an explicit parameter as in
the source.  Returns the score together with the threaded position. -/
def minimax (R : Rules P M) : Nat → P → Score → Score → Bool → Score × P
  | 0, b, _alpha, _beta, _maximizing => (.fin (evaluate_board R b), b)
  | depth+1, b, alpha, beta, maximizing =>
    if R.isGameOver b then (.fin (evaluate_board R b), b)
    else if maximizing then
      maxLoop R (fun b1 a1 b2 => minimax R depth b1 a1 b2 false)
        (R.legalMoves b) b .negInf alpha beta
    else
      minLoop R (fun b1 a1 b2 => minimax R depth b1 a1 b2 true)
        (R.legalMoves b) b .posInf alpha beta

/-- Loop state of `ChessAI._get_best_move_minimax` (src/chess_engine.py
lines 99-126): best move so far, best value, root alpha/beta, and the
threaded position. -/
structure RootSt (P M : Type) where
  bestMove : Option M
  bestValue : Score
  alpha : Score
  beta : Score
  board : P

/-- The root loop of `ChessAI._get_best_move_minimax` (src/chess_engine.py
lines 111-126).  After pushing a candidate move the recursive search is
seeded with `maximizing = not board.turn`, evaluated on the *pushed* board,
exactly as in line 114 of the source. -/
def rootLoop (R : Rules P M) (depth : Nat) : List M → RootSt P M → RootSt P M
  | [], st => st
  | m :: rest, st =>
    let b1 := R.push st.board m
    let r := minimax R (depth - 1) b1 st.alpha st.beta (!(R.turn b1))
    let b3 := R.pop r.2
    if R.turn b3 then
      let improved := Score.blt st.bestValue r.1
      let bv := if improved then r.1 else st.bestValue
      let bm := if improved then some m else st.bestMove
      rootLoop R depth rest ⟨bm, bv, Score.max st.alpha bv, st.beta, b3⟩
    else
      let improved := Score.blt r.1 st.bestValue
      let bv := if improved then r.1 else st.bestValue
      let bm := if improved then some m else st.bestMove
      rootLoop R depth rest ⟨bm, bv, st.alpha, Score.min st.beta bv, b3⟩

/-- Embeds `ChessAI._get_best_move_minimax` (src/chess_engine.py lines 98-132).
`shuffle` models the in-place `random.shuffle` of the legal-move list and
`fallbackIx` the `random.choice` index of the fallback branch. -/
def get_best_move_minimax (R : Rules P M) (shuffle : List M → List M)
    (fallbackIx : Nat) (b : P) (depth : Nat) : Option M × P :=
  let legal := R.legalMoves b
  if legal.isEmpty then (none, b)
  else
    let shuffled := shuffle legal
    let st0 : RootSt P M :=
      ⟨none, if R.turn b then .negInf else .posInf, .negInf, .posInf, b⟩
    let st := rootLoop R depth shuffled st0
    match st.bestMove with
    | none => (shuffled[fallbackIx % shuffled.length]?, st.board)
    | some m => (some m, st.board)

/-- Modelled from the spec (§4.1, "alternate maximizing (reference side to
move) and minimizing layers"): the same root loop but seeding the first
recursive call with `maximizing = (White to move at the child node)` instead
of the source's `not board.turn`.  Used only to compare against the
source-faithful `rootLoop`. -/
def rootLoopSpecAlternation (R : Rules P M) (depth : Nat) :
    List M → RootSt P M → RootSt P M
  | [], st => st
  | m :: rest, st =>
    let b1 := R.push st.board m
    let r := minimax R (depth - 1) b1 st.alpha st.beta (R.turn b1)
    let b3 := R.pop r.2
    if R.turn b3 then
      let improved := Score.blt st.bestValue r.1
      let bv := if improved then r.1 else st.bestValue
      let bm := if improved then some m else st.bestMove
      rootLoopSpecAlternation R depth rest ⟨bm, bv, Score.max st.alpha bv, st.beta, b3⟩
    else
      let improved := Score.blt r.1 st.bestValue
      let bv := if improved then r.1 else st.bestValue
      let bm := if improved then some m else st.bestMove
      rootLoopSpecAlternation R depth rest ⟨bm, bv, st.alpha, Score.min st.beta bv, b3⟩

/-- Modelled from the spec: the root driver with the spec-correct maximizing
seed, for comparison with `get_best_move_minimax`. -/
def get_best_move_minimax_specAlternation (R : Rules P M)
    (shuffle : List M → List M) (fallbackIx : Nat) (b : P) (depth : Nat) :
    Option M × P :=
  let legal := R.legalMoves b
  if legal.isEmpty then (none, b)
  else
    let shuffled := shuffle legal
    let st0 : RootSt P M :=
      ⟨none, if R.turn b then .negInf else .posInf, .negInf, .posInf, b⟩
    let st := rootLoopSpecAlternation R depth shuffled st0
    match st.bestMove with
    | none => (shuffled[fallbackIx % shuffled.length]?, st.board)
    | some m => (some m, st.board)

/-- One row of `ChessAI.levels`: search depth and blunder probability. -/
structure LevelCfg where
  depth : Nat
  errorRate : ℚ
deriving DecidableEq, Repr

/-- Embeds `ChessAI.levels` (src/chess_engine.py lines 8-19), the strength table
for levels 1..10. -/
def levels : Int → Option LevelCfg
  | 1 => some ⟨1, 3/5⟩
  | 2 => some ⟨1, 2/5⟩
  | 3 => some ⟨1, 1/5⟩
  | 4 => some ⟨2, 1/5⟩
  | 5 => some ⟨2, 1/10⟩
  | 6 => some ⟨3, 1/10⟩
  | 7 => some ⟨3, 1/20⟩
  | 8 => some ⟨3, 0⟩
  | 9 => some ⟨4, 1/20⟩
  | 10 => some ⟨4, 0⟩
  | _ => none

/-- Lines 32-36 of `ChessAI.get_move`: substitute level 5 when the level is
outside the table, then read off its settings (level 5 is `⟨2, 1/10⟩`, so
the `getD` default is never used). -/
def level_settings (level : Int) : LevelCfg :=
  let lv := if (levels level).isSome then level else 5
  (levels lv).getD ⟨2, 1/10⟩

/-- Embeds `ChessAI.get_move` (src/chess_engine.py lines 28-50).  `u` is the
injected `random.random()` draw, `blunderIx` the `random.choice` index of
the blunder branch, `shuffle`/`fallbackIx` the random sources of the
search driver. -/
def get_move (R : Rules P M) (b : P) (level : Int) (u : ℚ) (blunderIx : Nat)
    (shuffle : List M → List M) (fallbackIx : Nat) : Option M × P :=
  let cfg := level_settings level
  let legal := R.legalMoves b
  if legal.isEmpty then (none, b)
  else if u < cfg.errorRate then (legal[blunderIx % legal.length]?, b)
  else get_best_move_minimax R shuffle fallbackIx b cfg.depth

/-- Opponent kind of a session (`config["type"]`). -/
inductive OppKind where
  | computer | agent | human
deriving DecidableEq, Repr

/-- The session configuration dict built by `createGame`
(src/mcp_server.py lines 49-54), restricted to the keys the core reads:
`type`, `color` (`true` = white, read back with default white), and
`difficulty` (read back with default 5). -/
structure GameCfg where
  kind : OppKind
  color : Option Bool
  difficulty : Option Int
deriving DecidableEq, Repr

/-- Embeds `GameInstance` (src/game_state.py lines 8-17): id, board, config, and
whether an AI engine is bound (`ai is not None`).  The `move_event`
notification primitive is modelled by the notification counts returned by
the operations below. -/
structure Game (P : Type) where
  id : String
  board : P
  cfg : GameCfg
  hasAI : Bool
deriving DecidableEq, Repr

/-- Association-list model of a Python dict: lookup by key. -/
def lookupKV {α : Type} : List (String × α) → String → Option α
  | [], _ => none
  | (k1, v1) :: rest, k => if k1 = k then some v1 else lookupKV rest k

/-- Association-list model of a Python dict: `d[k] = v` overwrites an
existing binding in place, else appends. -/
def insertKV {α : Type} : List (String × α) → String → α → List (String × α)
  | [], k, v => [(k, v)]
  | (k1, v1) :: rest, k, v =>
    if k1 = k then (k, v) :: rest else (k1, v1) :: insertKV rest k v

/-- Embeds `GameManager.create_game` (src/game_state.py lines 44-59): the session
id is the first 8 characters of the generated UUID string (`uuidStr` models
`str(uuid.uuid4())`), the board starts at the initial position, an AI is
bound iff the opponent kind is `computer`, and the new session is inserted
unconditionally into the directory. -/
def create_game (R : Rules P M) (uuidStr : String)
    (games : List (String × Game P)) (cfg : GameCfg) :
    Game P × List (String × Game P) :=
  let gameId := uuidStr.take 8
  let g : Game P := ⟨gameId, R.initial, cfg, cfg.kind = OppKind.computer⟩
  (g, insertKV games gameId g)

/-- The failure taxonomy of `GameManager.make_move` (spec §7): the four
named recoverable failures, with the payloads the source puts in the raised
messages. -/
inductive MoveError (M : Type) where
  | sessionNotFound (gameId : String)
  | malformedMove (text : String)
  | illegalMove (text : String) (sample : List M)
  | falseWinClaim
deriving DecidableEq, Repr

/-- Observable outcome of `GameManager.make_move`: result or error, the
directory after the call, how many times the session's `move_event` was
set (waiter wake-ups), and whether the deferred computer turn was scheduled
(`asyncio.create_task(self._computer_turn(game))`). -/
structure MMOut (P M : Type) where
  result : Except (MoveError M) String
  games : List (String × Game P)
  notifyCount : Nat
  scheduledComputer : Bool

/-- Embeds `GameManager.make_move` (src/game_state.py lines 75-117): lookup, parse,
legality check (with a 3-move sample in the error), push, claim-win check
(pop and fail on a false claim), wake waiters once, and schedule the
computer turn iff the opponent is a computer and the game is not over.
`parse` models `chess.Move.from_uci` of the external engine. -/
def make_move [DecidableEq M] (R : Rules P M) (parse : String → Option M)
    (games : List (String × Game P)) (gameId moveUci : String)
    (claimWin : Bool) : MMOut P M :=
  match lookupKV games gameId with
  | none => ⟨.error (.sessionNotFound gameId), games, 0, false⟩
  | some game =>
    match parse moveUci with
    | none => ⟨.error (.malformedMove moveUci), games, 0, false⟩
    | some mv =>
      if mv ∈ R.legalMoves game.board then
        let b1 := R.push game.board mv
        if claimWin && !(R.isCheckmate b1) then
          let b2 := R.pop b1
          ⟨.error .falseWinClaim, insertKV games gameId { game with board := b2 }, 0, false⟩
        else
          let sched := game.cfg.kind == OppKind.computer && !(R.isGameOver b1)
          ⟨.ok "Move accepted", insertKV games gameId { game with board := b1 }, 1, sched⟩
      else
        ⟨.error (.illegalMove moveUci ((R.legalMoves game.board).take 3)), games, 0, false⟩

/-- Embeds `GameManager._computer_turn` (src/game_state.py lines 119-134): read the
configured difficulty with default 5, run the engine on the session's board
(threading the board through the search as the in-place mutation does),
push the returned move and notify once if a move came back, otherwise leave
the session as it is.  Returns the updated session and the notification
count. -/
def computer_turn (R : Rules P M) (g : Game P) (u : ℚ) (blunderIx : Nat)
    (shuffle : List M → List M) (fallbackIx : Nat) : Game P × Nat :=
  let difficulty := g.cfg.difficulty.getD 5
  let r := get_move R g.board difficulty u blunderIx shuffle fallbackIx
  match r.1 with
  | some m => ({ g with board := R.push r.2 m }, 1)
  | none => ({ g with board := r.2 }, 0)

/-- Embeds `GameInstance.result` (src/game_state.py lines 23-33), the winner text
once the game is over. -/
def game_result (R : Rules P M) (b : P) : String :=
  match R.outcomeWinner b with
  | some true => "White wins"
  | some false => "Black wins"
  | none => "Draw"

/-- Embeds `GameInstance.result` including its `None`-before-game-over guard. -/
def instance_result (R : Rules P M) (b : P) : Option String :=
  if R.isGameOver b then some (game_result R b) else none

/-- The wait ceiling of `waitForNextTurn`
(`asyncio.wait_for(..., timeout=30.0)`, src/mcp_server.py line 163). -/
def waitTimeoutSeconds : ℚ := 30

/-- Outcomes of `waitForNextTurn`, abstracted from the rendered payloads:
the unknown-session error, the terminal result, the retryable timeout, and
a returned position snapshot. -/
inductive WaitRes (P : Type) where
  | err (msg : String)
  | gameOver (result : String)
  | timeout
  | position (b : P)
deriving DecidableEq, Repr

/-- Embeds `waitForNextTurn` (src/mcp_server.py lines 132-196).  `wake` models the
outcome of `asyncio.wait_for(game.move_event.wait(), 30.0)` when the
function decides to wait: `none` is the `TimeoutError` branch, `some b1`
means the event fired and the session's board reads `b1` at that later
time.  On the two immediate-return paths no suspension happens, so the
board is the one read at call time. -/
def waitForNextTurn (R : Rules P M) (games : List (String × Game P))
    (gameId : String) (wake : Option P) : WaitRes P :=
  match lookupKV games gameId with
  | none => .err "Game not found"
  | some game =>
    if R.isGameOver game.board then
      .gameOver ((instance_result R game.board).getD "")
    else
      let myColor := game.cfg.color.getD true
      if R.turn game.board == myColor then .position game.board
      else
        match wake with
        | none => .timeout
        | some b1 => .position b1

/-- A concrete two-ply game over the abstract rules interface, used to
instantiate the theorems: positions are chronological lists of the moves
played, White moves on even ply.  From the root, White chooses move `0`
(after which Black can reach material `+10` or `-10`) or move `1` (after
which the only continuation is material `0`). -/
def tinyLegal : List Nat → List Nat
  | [] => [0, 1]
  | [0] => [0, 1]
  | [1] => [0]
  | _ => []

/-- Piece placement of the tiny game: one pawn on square 0 after the two
lines `[0,0]` (a White pawn) and `[0,1]` (a Black pawn); empty otherwise. -/
def tinyPieceAt (p : List Nat) (sq : Fin 64) : Option Piece :=
  if sq.val = 0 then
    match p with
    | [0, 0] => some ⟨.pawn, true⟩
    | [0, 1] => some ⟨.pawn, false⟩
    | _ => none
  else none

/-- The tiny game packaged as a `Rules` instance: push appends, pop drops
the last move (so pop is the exact inverse of push), and the game is over
exactly when no legal move remains. -/
def tinyRules : Rules (List Nat) Nat where
  initial := []
  legalMoves := tinyLegal
  push := fun b m => b ++ [m]
  pop := fun b => b.dropLast
  turn := fun b => b.length % 2 == 0
  pieceAt := tinyPieceAt
  isCheckmate := fun _ => false
  isStalemate := fun _ => false
  isInsufficientMaterial := fun _ => false
  isGameOver := fun b => tinyLegal b == []
  outcomeWinner := fun _ => none

/-- If the recursive step leaves the position unchanged and pop undoes push,
the maximizing loop leaves the position unchanged. -/
theorem maxLoop_board (R : Rules P M) (next : P → Score → Score → Score × P)
    (hpp : ∀ b m, R.pop (R.push b m) = b)
    (hnext : ∀ b a2 b2, (next b a2 b2).2 = b) :
    ∀ (ms : List M) (b : P) (me a2 b2 : Score),
      (maxLoop R next ms b me a2 b2).2 = b := by
  intro ms
  induction ms with
  | nil => intro b me a2 b2; rfl
  | cons m rest ih =>
    intro b me a2 b2
    simp only [maxLoop]
    split
    · simp [hnext, hpp]
    · rw [ih]; simp [hnext, hpp]

/-- Counterpart of `maxLoop_board` for the minimizing loop. -/
theorem minLoop_board (R : Rules P M) (next : P → Score → Score → Score × P)
    (hpp : ∀ b m, R.pop (R.push b m) = b)
    (hnext : ∀ b a2 b2, (next b a2 b2).2 = b) :
    ∀ (ms : List M) (b : P) (me a2 b2 : Score),
      (minLoop R next ms b me a2 b2).2 = b := by
  intro ms
  induction ms with
  | nil => intro b me a2 b2; rfl
  | cons m rest ih =>
    intro b me a2 b2
    simp only [minLoop]
    split
    · simp [hnext, hpp]
    · rw [ih]; simp [hnext, hpp]

/-- Every push in the search is undone before return: `minimax` leaves the
position it is given unchanged. -/
theorem minimax_board (R : Rules P M) (hpp : ∀ b m, R.pop (R.push b m) = b) :
    ∀ (depth : Nat) (b : P) (a2 b2 : Score) (mx : Bool),
      (minimax R depth b a2 b2 mx).2 = b := by
  intro depth
  induction depth with
  | zero => intro b a2 b2 mx; rfl
  | succ d ih =>
    intro b a2 b2 mx
    simp only [minimax]
    split
    · rfl
    · split
      · exact maxLoop_board R _ hpp (fun b1 a1 b1' => ih b1 a1 b1' false) _ b _ _ _
      · exact minLoop_board R _ hpp (fun b1 a1 b1' => ih b1 a1 b1' true) _ b _ _ _

/-- The root loop of the driver leaves the position unchanged. -/
theorem rootLoop_board (R : Rules P M) (hpp : ∀ b m, R.pop (R.push b m) = b)
    (depth : Nat) :
    ∀ (ms : List M) (st : RootSt P M),
      (rootLoop R depth ms st).board = st.board := by
  intro ms
  induction ms with
  | nil => intro st; rfl
  | cons m rest ih =>
    intro st
    simp only [rootLoop]
    split
    · rw [ih]; simp [minimax_board R hpp, hpp]
    · rw [ih]; simp [minimax_board R hpp, hpp]

/-- The driver `_get_best_move_minimax` leaves the position unchanged. -/
theorem get_best_move_minimax_board (R : Rules P M)
    (hpp : ∀ b m, R.pop (R.push b m) = b)
    (shuffle : List M → List M) (fallbackIx : Nat) (b : P) (depth : Nat) :
    (get_best_move_minimax R shuffle fallbackIx b depth).2 = b := by
  simp only [get_best_move_minimax]
  split
  · rfl
  · split <;> simp_all [rootLoop_board R hpp]

/-- Lemma: `get_move` leaves the position unchanged on all three of its paths. -/
theorem get_move_board (R : Rules P M) (hpp : ∀ b m, R.pop (R.push b m) = b)
    (b : P) (level : Int) (u : ℚ) (blunderIx : Nat)
    (shuffle : List M → List M) (fallbackIx : Nat) :
    (get_move R b level u blunderIx shuffle fallbackIx).2 = b := by
  simp only [get_move]
  split
  · rfl
  · split
    · rfl
    · exact get_best_move_minimax_board R hpp shuffle fallbackIx b _

/-- A `random.choice` modelled as indexing by `i % length` always yields a
member of a nonempty list. -/
theorem choice_mem {α : Type} (l : List α) (h : l ≠ []) (i : Nat) :
    ∃ x, l[i % l.length]? = some x ∧ x ∈ l := by
  have hpos : 0 < l.length := List.length_pos.mpr h
  have hlt : i % l.length < l.length := Nat.mod_lt _ hpos
  exact ⟨l[i % l.length], List.getElem?_eq_getElem hlt, List.getElem_mem hlt⟩

/-- The best move tracked by the root loop is either the one it started
with or one of the candidates it iterated over. -/
theorem rootLoop_bestMove (R : Rules P M) (depth : Nat) :
    ∀ (ms : List M) (st : RootSt P M),
      (rootLoop R depth ms st).bestMove = st.bestMove ∨
      ∃ m ∈ ms, (rootLoop R depth ms st).bestMove = some m := by
  intro ms
  induction ms with
  | nil => intro st; exact Or.inl rfl
  | cons m rest ih =>
    intro st
    simp only [rootLoop]
    split
    all_goals
      rcases ih _ with h | ⟨m1, hm1, h⟩
      · rw [h]
        dsimp only
        split
        · exact Or.inr ⟨m, List.mem_cons_self m rest, rfl⟩
        · exact Or.inl rfl
      · exact Or.inr ⟨m1, List.mem_cons_of_mem m hm1, h⟩

/-- Lemma: `selectMove` on the search path returns a move from the shuffled legal
list, or the random fallback from that list. -/
theorem get_best_move_minimax_mem (R : Rules P M)
    (shuffle : List M → List M) (hsh : ∀ l, (shuffle l).Perm l)
    (fallbackIx : Nat) (b : P) (depth : Nat)
    (hne : R.legalMoves b ≠ []) :
    ∃ m, (get_best_move_minimax R shuffle fallbackIx b depth).1 = some m ∧
      m ∈ R.legalMoves b := by
  simp only [get_best_move_minimax]
  rw [if_neg (by simpa [List.isEmpty_iff] using hne)]
  have hperm := hsh (R.legalMoves b)
  have hne2 : shuffle (R.legalMoves b) ≠ [] := by
    intro h0
    rw [h0] at hperm
    exact hne hperm.symm.eq_nil
  rcases rootLoop_bestMove R depth (shuffle (R.legalMoves b))
      ⟨none, if R.turn b then .negInf else .posInf, .negInf, .posInf, b⟩ with
    h | ⟨m, hm, h⟩
  · rw [h]
    dsimp only
    obtain ⟨x, hx, hxmem⟩ := choice_mem (shuffle (R.legalMoves b)) hne2 fallbackIx
    exact ⟨x, by simp [hx], hperm.mem_iff.mp hxmem⟩
  · rw [h]
    exact ⟨m, rfl, hperm.mem_iff.mp hm⟩

/-- Re-inserting the value already stored under a key leaves the directory
unchanged. -/
theorem insertKV_lookup_self {α : Type} :
    ∀ (d : List (String × α)) (k : String) (v : α),
      lookupKV d k = some v → insertKV d k v = d := by
  intro d
  induction d with
  | nil => intro k v h; simp [lookupKV] at h
  | cons kv rest ih =>
    intro k v h
    obtain ⟨k1, v1⟩ := kv
    simp only [lookupKV] at h
    simp only [insertKV]
    by_cases hk : k1 = k
    · subst hk
      rw [if_pos rfl] at h ⊢
      obtain rfl : v1 = v := by simpa using h
      rfl
    · rw [if_neg hk] at h ⊢
      rw [ih k v h]

/-- Looking up the key just inserted returns the inserted value. -/
theorem lookupKV_insert_self {α : Type} :
    ∀ (d : List (String × α)) (k : String) (v : α),
      lookupKV (insertKV d k v) k = some v := by
  intro d
  induction d with
  | nil => intro k v; simp [insertKV, lookupKV]
  | cons kv rest ih =>
    intro k v
    obtain ⟨k1, v1⟩ := kv
    simp only [insertKV]
    by_cases hk : k1 = k
    · subst hk; simp [lookupKV]
    · rw [if_neg hk]
      simp only [lookupKV, if_neg hk]
      exact ih k v

/-- Inserting under one key does not change lookups of another key. -/
theorem lookupKV_insert_ne {α : Type} :
    ∀ (d : List (String × α)) (k k' : String) (v : α), k' ≠ k →
      lookupKV (insertKV d k v) k' = lookupKV d k' := by
  intro d
  induction d with
  | nil =>
    intro k k' v hne
    simp only [insertKV, lookupKV]
    rw [if_neg (Ne.symm hne)]
  | cons kv rest ih =>
    intro k k' v hne
    obtain ⟨k1, v1⟩ := kv
    simp only [insertKV]
    by_cases hk : k1 = k
    · subst hk
      simp only [lookupKV, if_neg (Ne.symm hne)]
    · rw [if_neg hk]
      simp only [lookupKV]
      by_cases hk' : k1 = k'
      · simp [hk']
      · rw [if_neg hk', if_neg hk', ih k k' v hne]

/-- C1: the claim fails on the code.  In the root driver the first recursive
call after pushing a candidate move is seeded with `not board.turn`
(src/chess_engine.py line 114), so a node where Black is to move is searched
as a *maximizing* layer.  In the concrete two-ply game: after White's
candidate move `0` Black is to move at the child, yet the seed is `true`
(maximizing); the driver therefore scores move `0` at `+10` and selects it,
although under correct alternation (the clearly named spec-seeded driver)
its value is `-10` and move `1` (value `0`) is selected.  The pruning test
`beta <= alpha` itself matches the claim; the role alternation does not. -/
theorem thm_C1_seed_inversion :
    tinyRules.turn (tinyRules.push [] 0) = false ∧
    (!(tinyRules.turn (tinyRules.push [] 0))) = true ∧
    (get_best_move_minimax tinyRules id 0 [] 2).1 = some 0 ∧
    (get_best_move_minimax_specAlternation tinyRules id 0 [] 2).1 = some 1 ∧
    (minimax tinyRules 1 (tinyRules.push [] 0) .negInf .posInf false).1 = .fin (-10) ∧
    (minimax tinyRules 1 (tinyRules.push [] 1) .negInf .posInf false).1 = .fin 0 := by
  refine ⟨by decide, by decide, by decide, by decide, by decide, by decide⟩

/-- C10: `selectMove` has no net effect on the position it is given — every
push during the search is popped before return, and the blunder and
no-legal-move paths do not touch the position — provided the external
engine's `pop` is the exact inverse of `push` (spec §6). -/
theorem thm_C10_no_net_effect (R : Rules P M)
    (hpp : ∀ b m, R.pop (R.push b m) = b)
    (b : P) (level : Int) (u : ℚ) (blunderIx : Nat)
    (shuffle : List M → List M) (fallbackIx : Nat) :
    (get_move R b level u blunderIx shuffle fallbackIx).2 = b :=
  get_move_board R hpp b level u blunderIx shuffle fallbackIx

/-- Witness for C10 at the concrete game: a depth-3 (level 8) search from
the root leaves the root position unchanged. -/
theorem thm_C10_witness :
    (get_move tinyRules [] 8 1 0 id 0).2 = ([] : List Nat) :=
  thm_C10_no_net_effect tinyRules (by intro b m; simp [tinyRules]) [] 8 1 0 id 0

/-- C3: on a position with at least one legal move `selectMove` returns some
member of the legal-move set (falling back to a uniform random legal move if
the loop kept no best move); on a position with no legal moves it returns
`None`.  Quantified over every level and every injected random source, with
the shuffle assumed to permute its input. -/
theorem thm_C3_some_legal (R : Rules P M)
    (shuffle : List M → List M) (hsh : ∀ l, (shuffle l).Perm l)
    (fallbackIx blunderIx : Nat) (u : ℚ) (level : Int) (b : P) :
    (R.legalMoves b = [] →
      (get_move R b level u blunderIx shuffle fallbackIx).1 = none) ∧
    (R.legalMoves b ≠ [] →
      ∃ m, (get_move R b level u blunderIx shuffle fallbackIx).1 = some m ∧
        m ∈ R.legalMoves b) := by
  constructor
  · intro h
    simp [get_move, h]
  · intro hne
    simp only [get_move]
    rw [if_neg (by simpa [List.isEmpty_iff] using hne)]
    split
    · exact choice_mem (R.legalMoves b) hne blunderIx
    · exact get_best_move_minimax_mem R shuffle hsh fallbackIx b _ hne

/-- Witness for C3: at the concrete game, the root (two legal moves, level
8 so no blunder) yields a legal move, and the terminal position `[0,0]`
(no legal moves) yields `None`. -/
theorem thm_C3_witness :
    (∃ m, (get_move tinyRules [] 8 (1/2) 0 id 0).1 = some m ∧
      m ∈ tinyRules.legalMoves []) ∧
    (get_move tinyRules [0, 0] 8 (1/2) 0 id 0).1 = none :=
  ⟨(thm_C3_some_legal tinyRules id (fun l => List.Perm.refl l) 0 0 (1/2) 8 []).2
      (by decide),
   (thm_C3_some_legal tinyRules id (fun l => List.Perm.refl l) 0 0 (1/2) 8 [0, 0]).1
      (by decide)⟩

/-- C8: on a position with at least one legal move, `selectMove` looks up
the level's settings (substituting the level-5 defaults when the level is
outside the table), draws one uniform sample, and when the sample falls
below the blunder probability it returns the uniformly chosen legal move
without consulting the search: the result is then the indexed legal move,
a member of the legal-move set, and independent of the search's own random
sources (shuffle and fallback index).  Determinism in the board, level and
injected random source is intrinsic: `get_move` is a function of exactly
those arguments. -/
theorem thm_C8_blunder_path (R : Rules P M) (b : P) (level : Int) (u : ℚ)
    (blunderIx : Nat)
    (hne : R.legalMoves b ≠ [])
    (hu : u < (level_settings level).errorRate) :
    (∀ shuffle fallbackIx shuffle' fallbackIx',
      get_move R b level u blunderIx shuffle fallbackIx
        = get_move R b level u blunderIx shuffle' fallbackIx') ∧
    (∀ shuffle fallbackIx,
      (get_move R b level u blunderIx shuffle fallbackIx).1
        = (R.legalMoves b)[blunderIx % (R.legalMoves b).length]?) ∧
    (∀ shuffle fallbackIx,
      ∃ m, (get_move R b level u blunderIx shuffle fallbackIx).1 = some m ∧
        m ∈ R.legalMoves b) ∧
    ((levels level).isSome = false → level_settings level = level_settings 5) := by
  have hstep : ∀ (shuffle : List M → List M) (fallbackIx : Nat),
      get_move R b level u blunderIx shuffle fallbackIx
        = ((R.legalMoves b)[blunderIx % (R.legalMoves b).length]?, b) := by
    intro shuffle fallbackIx
    simp only [get_move]
    rw [if_neg (by simpa [List.isEmpty_iff] using hne), if_pos hu]
  refine ⟨fun s f s' f' => by rw [hstep s f, hstep s' f'], fun s f => by rw [hstep s f],
    fun s f => ?_, fun h => by simp [level_settings, h]⟩
  obtain ⟨x, hx, hxmem⟩ := choice_mem (R.legalMoves b) hne blunderIx
  exact ⟨x, by rw [hstep s f]; exact hx, hxmem⟩

/-- Witness for C8 at the concrete game: level 1 has blunder probability
3/5, the injected draw 1/10 falls below it, and the blunder path returns
the indexed legal move of the root. -/
theorem thm_C8_witness :
    (get_move tinyRules [] 1 (1/10) 0 id 0).1
      = (tinyRules.legalMoves [])[0 % (tinyRules.legalMoves []).length]? :=
  (thm_C8_blunder_path tinyRules [] 1 (1/10) 0 (by decide)
    (by norm_num [level_settings, levels])).2.1 id 0

/-- C2: a legal move submitted with `claimWin = true` whose resulting
position is not checkmate fails with `FalseWinClaim`, the session's
position is exactly the one before the call (the push is reverted by the
pop, given that the engine's `pop` inverts `push`), no other session is
touched, and no waiter notification is issued. -/
theorem thm_C2_false_claim_reverts [DecidableEq M] (R : Rules P M)
    (parse : String → Option M) (games : List (String × Game P))
    (gameId moveUci : String) (game : Game P) (mv : M)
    (hpp : ∀ b m, R.pop (R.push b m) = b)
    (hg : lookupKV games gameId = some game)
    (hparse : parse moveUci = some mv)
    (hlegal : mv ∈ R.legalMoves game.board)
    (hnotmate : R.isCheckmate (R.push game.board mv) = false) :
    (make_move R parse games gameId moveUci true).result
      = Except.error .falseWinClaim ∧
    (make_move R parse games gameId moveUci true).games = games ∧
    (make_move R parse games gameId moveUci true).notifyCount = 0 := by
  have hout : make_move R parse games gameId moveUci true
      = ⟨.error .falseWinClaim,
         insertKV games gameId { game with board := R.pop (R.push game.board mv) },
         0, false⟩ := by
    simp only [make_move, hg, hparse]
    rw [if_pos hlegal, if_pos (by simp [hnotmate])]
  rw [hout]
  refine ⟨rfl, ?_, rfl⟩
  rw [hpp game.board mv]
  exact insertKV_lookup_self games gameId game hg

/-- The move parser of the concrete fixture: the tiny game's two root moves
plus a parseable but illegal move. -/
def parse0 : String → Option Nat
  | "m0" => some 0
  | "m1" => some 1
  | "m9" => some 9
  | _ => none

/-- A concrete human-opponent session of the tiny game at the root. -/
def gameW : Game (List Nat) :=
  ⟨"g1", [], ⟨OppKind.human, some true, none⟩, false⟩

/-- A concrete computer-opponent session of the tiny game at the root. -/
def gameC : Game (List Nat) :=
  ⟨"g2", [], ⟨OppKind.computer, some true, some 8⟩, true⟩

/-- The directory fixture holding the two concrete sessions. -/
def games0 : List (String × Game (List Nat)) := [("g1", gameW), ("g2", gameC)]

/-- Witness for C2: submitting the legal root move `m0` of the tiny game
with a win claim fails with `FalseWinClaim` and leaves the directory — in
particular the session's position — unchanged, with no notification. -/
theorem thm_C2_witness :
    (make_move tinyRules parse0 games0 "g1" "m0" true).result
      = Except.error .falseWinClaim ∧
    (make_move tinyRules parse0 games0 "g1" "m0" true).games = games0 ∧
    (make_move tinyRules parse0 games0 "g1" "m0" true).notifyCount = 0 :=
  thm_C2_false_claim_reverts tinyRules parse0 games0 "g1" "m0" gameW 0
    (by intro b m; simp [tinyRules]) (by decide) rfl (by decide) rfl

/-- C7: `submitMove` validates in a fixed order before any mutation: an
unknown identifier fails with `SessionNotFound` (whatever the move text),
then an unparseable move text fails with `MalformedMove`, then a parsed
move outside the current legal-move set fails with `IllegalMove` carrying a
three-move sample of the legal moves; in all three cases the directory —
and hence the session's position — is returned unchanged and no
notification or scheduling happens. -/
theorem thm_C7_validation_order [DecidableEq M] (R : Rules P M)
    (parse : String → Option M) (games : List (String × Game P))
    (gameId moveUci : String) (claimWin : Bool) :
    (lookupKV games gameId = none →
      make_move R parse games gameId moveUci claimWin
        = ⟨.error (.sessionNotFound gameId), games, 0, false⟩) ∧
    (∀ game, lookupKV games gameId = some game → parse moveUci = none →
      make_move R parse games gameId moveUci claimWin
        = ⟨.error (.malformedMove moveUci), games, 0, false⟩) ∧
    (∀ game mv, lookupKV games gameId = some game → parse moveUci = some mv →
      mv ∉ R.legalMoves game.board →
      make_move R parse games gameId moveUci claimWin
        = ⟨.error (.illegalMove moveUci ((R.legalMoves game.board).take 3)),
           games, 0, false⟩) := by
  refine ⟨fun h => by simp only [make_move, h], ?_, ?_⟩
  · intro game hg hp
    simp only [make_move, hg, hp]
  · intro game mv hg hp hnl
    simp only [make_move, hg, hp]
    rw [if_neg hnl]

/-- Witness for C7 at the concrete fixture: an unknown session id, a move
text the parser rejects, and a parseable move outside the legal-move set
each produce the corresponding error and leave the directory unchanged. -/
theorem thm_C7_witness :
    make_move tinyRules parse0 games0 "zz" "m0" false
      = ⟨.error (.sessionNotFound "zz"), games0, 0, false⟩ ∧
    make_move tinyRules parse0 games0 "g1" "bogus" false
      = ⟨.error (.malformedMove "bogus"), games0, 0, false⟩ ∧
    make_move tinyRules parse0 games0 "g1" "m9" false
      = ⟨.error (.illegalMove "m9" ((tinyRules.legalMoves gameW.board).take 3)),
         games0, 0, false⟩ :=
  ⟨(thm_C7_validation_order tinyRules parse0 games0 "zz" "m0" false).1 rfl,
   (thm_C7_validation_order tinyRules parse0 games0 "g1" "bogus" false).2.1 gameW rfl rfl,
   (thm_C7_validation_order tinyRules parse0 games0 "g1" "m9" false).2.2 gameW 9 rfl rfl
     (by decide)⟩

/-- C5: a successful `submitMove` reports success, wakes the session's
waiters exactly once, records the new position, and schedules the deferred
computer step exactly when the opponent kind is `computer` and the game is
not over after the move; the deferred step itself reads the configured
strength with default 5, and — when `pop` inverts `push`, so the search
leaves the board as it found it — applies the selected move and notifies
exactly once when a move is returned, and leaves the session entirely
unmutated with no notification when `MoveSelector` returns no move. -/
theorem thm_C5_success_and_deferred [DecidableEq M] (R : Rules P M)
    (parse : String → Option M) (games : List (String × Game P))
    (gameId moveUci : String) (claimWin : Bool) (game : Game P) (mv : M)
    (hg : lookupKV games gameId = some game)
    (hparse : parse moveUci = some mv)
    (hlegal : mv ∈ R.legalMoves game.board)
    (hclaim : claimWin = false ∨ R.isCheckmate (R.push game.board mv) = true) :
    (make_move R parse games gameId moveUci claimWin).result
      = Except.ok "Move accepted" ∧
    (make_move R parse games gameId moveUci claimWin).notifyCount = 1 ∧
    ((make_move R parse games gameId moveUci claimWin).scheduledComputer = true ↔
      (game.cfg.kind = OppKind.computer ∧
        R.isGameOver (R.push game.board mv) = false)) ∧
    (make_move R parse games gameId moveUci claimWin).games
      = insertKV games gameId { game with board := R.push game.board mv } ∧
    (∀ (g1 : Game P) (u : ℚ) (blunderIx : Nat) (shuffle : List M → List M)
        (fallbackIx : Nat), (∀ b m, R.pop (R.push b m) = b) →
      ((get_move R g1.board (g1.cfg.difficulty.getD 5) u blunderIx shuffle
          fallbackIx).1 = none →
        computer_turn R g1 u blunderIx shuffle fallbackIx = (g1, 0)) ∧
      (∀ m1, (get_move R g1.board (g1.cfg.difficulty.getD 5) u blunderIx shuffle
          fallbackIx).1 = some m1 →
        computer_turn R g1 u blunderIx shuffle fallbackIx
          = ({ g1 with board := R.push g1.board m1 }, 1))) := by
  have hcb : (claimWin && !(R.isCheckmate (R.push game.board mv))) = false := by
    rcases hclaim with h | h <;> simp [h]
  have hout : make_move R parse games gameId moveUci claimWin
      = ⟨.ok "Move accepted",
         insertKV games gameId { game with board := R.push game.board mv }, 1,
         game.cfg.kind == OppKind.computer && !(R.isGameOver (R.push game.board mv))⟩ := by
    simp only [make_move, hg, hparse]
    rw [if_pos hlegal, if_neg (by simp [hcb])]
  refine ⟨by rw [hout], by rw [hout], by rw [hout]; simp, by rw [hout], ?_⟩
  intro g1 u blunderIx shuffle fallbackIx hpp
  have hboard : (get_move R g1.board (g1.cfg.difficulty.getD 5) u blunderIx shuffle
      fallbackIx).2 = g1.board :=
    get_move_board R hpp g1.board _ u blunderIx shuffle fallbackIx
  constructor
  · intro hnone
    simp only [computer_turn, hnone, hboard]
  · intro m1 hsome
    simp only [computer_turn, hsome, hboard]

/-- Witness for C5: submitting the legal root move to the concrete computer
session succeeds, notifies once, schedules the deferred step (the opponent
is a computer and the game is not over), and the deferred step on the
session applies the move the engine selects with one notification. -/
theorem thm_C5_witness :
    (make_move tinyRules parse0 games0 "g2" "m0" false).result
      = Except.ok "Move accepted" ∧
    (make_move tinyRules parse0 games0 "g2" "m0" false).notifyCount = 1 ∧
    (make_move tinyRules parse0 games0 "g2" "m0" false).scheduledComputer = true ∧
    computer_turn tinyRules gameC 1 0 id 0
      = ({ gameC with board := tinyRules.push gameC.board 0 }, 1) :=
  ⟨(thm_C5_success_and_deferred tinyRules parse0 games0 "g2" "m0" false gameC 0
      rfl rfl (by decide) (Or.inl rfl)).1,
   (thm_C5_success_and_deferred tinyRules parse0 games0 "g2" "m0" false gameC 0
      rfl rfl (by decide) (Or.inl rfl)).2.1,
   (thm_C5_success_and_deferred tinyRules parse0 games0 "g2" "m0" false gameC 0
      rfl rfl (by decide) (Or.inl rfl)).2.2.1.mpr ⟨rfl, by decide⟩,
   ((thm_C5_success_and_deferred tinyRules parse0 games0 "g2" "m0" false gameC 0
      rfl rfl (by decide) (Or.inl rfl)).2.2.2.2 gameC 1 0 id 0
      (by intro b m; simp [tinyRules])).2 0 (by decide)⟩

/-- A concrete finished session of the tiny game (`[0,0]` has no legal
moves, so the game is over). -/
def gameO : Game (List Nat) :=
  ⟨"g3", [0, 0], ⟨OppKind.agent, some true, none⟩, false⟩

/-- A concrete session of the tiny game where it is the opponent's turn
(the waiter is White, Black is to move at `[0]`). -/
def gameB : Game (List Nat) :=
  ⟨"g4", [0], ⟨OppKind.agent, some true, none⟩, false⟩

/-- C6: on a known session, `waitForOpponentMove` returns the terminal
result immediately when the game is over, returns the current position
immediately when it is already the awaiting side's turn (both independent of
the notification outcome, i.e. without waiting), otherwise blocks on the
notification primitive and maps its expiry to the distinguished retryable
`timeout` outcome — a constructor distinct from the error outcome — with the
wait ceiling fixed at 30 time units. -/
theorem thm_C6_wait_contract (R : Rules P M) (games : List (String × Game P))
    (gameId : String) (game : Game P)
    (hg : lookupKV games gameId = some game) :
    (R.isGameOver game.board = true → ∀ wake,
      waitForNextTurn R games gameId wake
        = WaitRes.gameOver (game_result R game.board)) ∧
    (R.isGameOver game.board = false →
      R.turn game.board = game.cfg.color.getD true → ∀ wake,
      waitForNextTurn R games gameId wake = WaitRes.position game.board) ∧
    (R.isGameOver game.board = false →
      R.turn game.board ≠ game.cfg.color.getD true →
      waitForNextTurn R games gameId none = WaitRes.timeout) ∧
    waitTimeoutSeconds = 30 := by
  refine ⟨?_, ?_, ?_, rfl⟩
  · intro hover wake
    simp [waitForNextTurn, hg, hover, instance_result]
  · intro hover hturn wake
    simp [waitForNextTurn, hg, hover, hturn]
  · intro hover hturn
    have hb : (R.turn game.board == game.cfg.color.getD true) = false :=
      beq_eq_false_iff_ne.mpr hturn
    simp [waitForNextTurn, hg, hover, hb]

/-- Witness for C6 at the concrete sessions: a finished game returns the
terminal result, a my-turn session returns its position without consuming a
wake, and a not-my-turn session whose wait expires returns `timeout`. -/
theorem thm_C6_witness :
    waitForNextTurn tinyRules [("g3", gameO)] "g3" none
      = WaitRes.gameOver (game_result tinyRules gameO.board) ∧
    waitForNextTurn tinyRules games0 "g1" none = WaitRes.position gameW.board ∧
    waitForNextTurn tinyRules [("g4", gameB)] "g4" none = WaitRes.timeout :=
  ⟨(thm_C6_wait_contract tinyRules [("g3", gameO)] "g3" gameO rfl).1 (by decide) none,
   (thm_C6_wait_contract tinyRules games0 "g1" gameW rfl).2.1 (by decide) (by decide) none,
   (thm_C6_wait_contract tinyRules [("g4", gameB)] "g4" gameB rfl).2.2.1
     (by decide) (by decide)⟩

/-- C4: the claim fails on the code.  In the concrete session `gameB` the
waiter (White) blocks because Black is to move; the wake arrives with the
session at `[0,0]`, a position where the game is over — yet the call returns
`position [0,0]`, not the terminal result: after waking, the code renders
and returns the board without re-checking whose turn it is or whether the
game is over (src/mcp_server.py lines 163-196 fall straight through to the
rendering). -/
theorem thm_C4_cex :
    waitForNextTurn tinyRules [("g4", gameB)] "g4" (some [0, 0])
      = WaitRes.position [0, 0] ∧
    tinyRules.isGameOver [0, 0] = true ∧
    tinyRules.isGameOver gameB.board = false ∧
    tinyRules.turn gameB.board ≠ gameB.cfg.color.getD true := by
  refine ⟨by decide, by decide, by decide, by decide⟩

/-- C4 as amended: whenever `waitForOpponentMove` wakes from the
notification primitive it returns the position read at wake time
unconditionally — no re-check of the waiter's turn or of game-over happens
after the wake; the authoritative condition is consulted only before
deciding to wait. -/
theorem thm_C4_amended (R : Rules P M) (games : List (String × Game P))
    (gameId : String) (game : Game P)
    (hg : lookupKV games gameId = some game)
    (hover : R.isGameOver game.board = false)
    (hturn : R.turn game.board ≠ game.cfg.color.getD true) :
    ∀ b1, waitForNextTurn R games gameId (some b1) = WaitRes.position b1 := by
  intro b1
  have hb : (R.turn game.board == game.cfg.color.getD true) = false :=
    beq_eq_false_iff_ne.mpr hturn
  simp [waitForNextTurn, hg, hover, hb]

/-- Witness for the amended C4: the blocked concrete session returns
whatever position accompanies the wake, here `[1]`. -/
theorem thm_C4_amended_witness :
    waitForNextTurn tinyRules [("g4", gameB)] "g4" (some [1])
      = WaitRes.position [1] :=
  thm_C4_amended tinyRules [("g4", gameB)] "g4" gameB rfl (by decide) (by decide) [1]

/-- A concrete human-opponent configuration. -/
def cfgHuman : GameCfg := ⟨OppKind.human, some true, none⟩

/-- A concrete agent-opponent configuration, distinguishable from
`cfgHuman`. -/
def cfgAgent : GameCfg := ⟨OppKind.agent, some true, none⟩

/-- C9: the claim fails on the code.  The session identifier is the
generated UUID string truncated to its first 8 characters, and the new
session is inserted unconditionally.  Two distinct calls — two *distinct*
UUID strings — that share their first 8 characters allocate the *same*
identifier, and the second creation overwrites the first `SessionState`:
afterwards the directory holds a single entry, the second session. -/
theorem thm_C9_cex :
    "0123456789ab" ≠ "01234567ffff" ∧
    (create_game tinyRules "0123456789ab" [] cfgHuman).1.id
      = (create_game tinyRules "01234567ffff" [] cfgAgent).1.id ∧
    (create_game tinyRules "01234567ffff"
        (create_game tinyRules "0123456789ab" [] cfgHuman).2 cfgAgent).2
      = [("01234567", ⟨"01234567", [], cfgAgent, false⟩)] ∧
    (⟨"01234567", [], cfgAgent, false⟩ : Game (List Nat))
      ≠ (create_game tinyRules "0123456789ab" [] cfgHuman).1 := by
  refine ⟨by decide, by decide, by decide, by decide⟩

/-- C9 as amended: identifiers are distinct — and hence the directory keeps
both `SessionState`s and every unrelated entry — exactly when the two
generated UUID strings differ in their first 8 characters; the code itself
performs an unconditional insert with no collision check. -/
theorem thm_C9_amended (R : Rules P M) (d : List (String × Game P))
    (u1 u2 : String) (c1 c2 : GameCfg)
    (hne : u1.take 8 ≠ u2.take 8) :
    (create_game R u1 d c1).1.id
      ≠ (create_game R u2 (create_game R u1 d c1).2 c2).1.id ∧
    lookupKV (create_game R u2 (create_game R u1 d c1).2 c2).2 (u1.take 8)
      = some (create_game R u1 d c1).1 ∧
    lookupKV (create_game R u2 (create_game R u1 d c1).2 c2).2 (u2.take 8)
      = some (create_game R u2 (create_game R u1 d c1).2 c2).1 ∧
    (∀ k, k ≠ u1.take 8 → k ≠ u2.take 8 →
      lookupKV (create_game R u2 (create_game R u1 d c1).2 c2).2 k
        = lookupKV d k) := by
  simp only [create_game]
  refine ⟨hne, ?_, lookupKV_insert_self _ _ _, ?_⟩
  · rw [lookupKV_insert_ne _ _ _ _ hne]
    exact lookupKV_insert_self _ _ _
  · intro k hk1 hk2
    rw [lookupKV_insert_ne _ _ _ _ hk2, lookupKV_insert_ne _ _ _ _ hk1]

/-- Witness for the amended C9: two UUID strings with different 8-character
prefixes create two coexisting sessions with distinct identifiers. -/
theorem thm_C9_amended_witness :
    (create_game tinyRules "aaaa0000bbbb" [] cfgHuman).1.id
      ≠ (create_game tinyRules "cccc1111dddd"
          (create_game tinyRules "aaaa0000bbbb" [] cfgHuman).2 cfgAgent).1.id ∧
    lookupKV (create_game tinyRules "cccc1111dddd"
        (create_game tinyRules "aaaa0000bbbb" [] cfgHuman).2 cfgAgent).2
      ("aaaa0000bbbb".take 8)
      = some (create_game tinyRules "aaaa0000bbbb" [] cfgHuman).1 :=
  ⟨(thm_C9_amended tinyRules [] "aaaa0000bbbb" "cccc1111dddd" cfgHuman cfgAgent
      (by decide)).1,
   (thm_C9_amended tinyRules [] "aaaa0000bbbb" "cccc1111dddd" cfgHuman cfgAgent
      (by decide)).2.1⟩
